import Mathlib

/-
Verification of the filesystem server in src/filesystem/index.ts.

Shallow embedding conventions:
* JavaScript strings (file contents, paths, line arrays) are modelled as
  lists of characters (`Text`); positions count characters.
* Error-raising functions return `Except String`; the thrown message text is
  reproduced verbatim.
* The file system needed by `validatePath` is abstracted as a
  `realpath : Text → Option Text` function (`none` models an ENOENT failure).
* JavaScript `NaN` values (which arise from `offset - undefined + 1`) are
  modelled as `none` in an `Option Int`, rendered as the string "NaN".
-/

abbrev Text := List Char

/-- Decidable equality for `Except`, used to evaluate concrete runs. -/
instance {ε α : Type} [DecidableEq ε] [DecidableEq α] : DecidableEq (Except ε α) := fun a b =>
  match a, b with
  | Except.ok x, Except.ok y =>
    if h : x = y then isTrue (congrArg Except.ok h) else isFalse (fun hh => h (Except.ok.inj hh))
  | Except.error x, Except.error y =>
    if h : x = y then isTrue (congrArg Except.error h)
    else isFalse (fun hh => h (Except.error.inj hh))
  | Except.ok _, Except.error _ => isFalse (fun hh => Except.noConfusion hh)
  | Except.error _, Except.ok _ => isFalse (fun hh => Except.noConfusion hh)

/-- JS `s.split(sep)` for a one-character separator: always returns at least
one piece, with one more piece than there are separator occurrences. -/
def splitOnChar (sep : Char) : Text → List Text
  | [] => [[]]
  | c :: rest =>
    match splitOnChar sep rest with
    | [] => [[]]
    | h :: t => if c = sep then [] :: h :: t else (c :: h) :: t

/-- JS `content.split('\n')`. -/
def splitNl (t : Text) : List Text := splitOnChar '\n' t

/-- JS `lines.join('\n')`. -/
def joinNl (ls : List Text) : Text := List.intercalate ['\n'] ls

/-- JS `path.endsWith(suffix)`. -/
def endsWithT (s suffix : Text) : Bool := suffix.isSuffixOf s

/-- The per-operation structural-check condition of `performCharBasedUpdate`
and the final-check condition of `performLineBasedUpdate`:
`filePath.endsWith('.ts') || filePath.endsWith('.js')`. -/
def isCodeFile (filePath : Text) : Bool :=
  endsWithT filePath ".ts".toList || endsWithT filePath ".js".toList

/-- The extension condition of the `modify_text` tool handler:
`.ts`, `.js`, `.py` or `.json`. -/
def isStructuredFile (path : Text) : Bool :=
  endsWithT path ".ts".toList || endsWithT path ".js".toList ||
  endsWithT path ".py".toList || endsWithT path ".json".toList

/- ===== StructureValidator (validateCodeStructure, lines 319-339) ===== -/

/-- The opening delimiters recognised by `validateCodeStructure` (JS string
literal containing a brace, a parenthesis and a square bracket). -/
def openerChars : List Char := ['\x7b', '(', '[']

/-- The closing delimiters recognised by `validateCodeStructure`. -/
def closerChars : List Char := ['\x7d', ')', ']']

/-- JS `pairs = \x7b '\x7b': '\x7d', '(': ')', '[': ']' \x7d`. -/
def bracketPairs : List (Char × Char) := [('\x7b', '\x7d'), ('(', ')'), ('[', ']')]

/-- JS `Object.entries(pairs).find(([_, close]) => close === char)?.[0]`. -/
def expectedOpener (c : Char) : Option Char :=
  (bracketPairs.find? (fun p => p.2 == c)).map (fun p => p.1)

/-- Rendering of a JS value that may be `undefined` inside a template string. -/
def jsOptCharStr : Option Char → String
  | some c => toString c
  | none => "undefined"

/-- The mismatched-closer error text of `validateCodeStructure`. -/
def closeErrorMsg (expected : Option Char) (c : Char) : String :=
  "Unbalanced brackets: expected " ++ jsOptCharStr expected ++ ", got " ++ toString c

/-- The leftover-opener error text of `validateCodeStructure`; the JS stack
array lists pushes oldest-first, which is the reverse of our cons-stack. -/
def unclosedMsg (stack : List Char) : String :=
  "Unclosed brackets: " ++ String.intercalate ", " (stack.reverse.map toString)

/-- The character loop of `validateCodeStructure`: push openers; on a closer,
pop and compare with the expected opener (`undefined` when the stack is
empty); at end of input a non-empty stack is an error. -/
def structGo : List Char → List Char → Except String Unit
  | [], stack =>
    if stack.length > 0 then Except.error (unclosedMsg stack)
    else Except.ok ()
  | c :: rest, stack =>
    if openerChars.contains c then structGo rest (c :: stack)
    else if closerChars.contains c then
      if stack.head? = expectedOpener c then structGo rest stack.tail
      else Except.error (closeErrorMsg (expectedOpener c) c)
    else structGo rest stack

/-- Embeds `validateCodeStructure(content)` (lines 319-339). -/
def validateCodeStructure (content : Text) : Except String Unit := structGo content []

/-- Message-free version of the bracket machine, used to state and prove the
correctness of `validateCodeStructure`; `none` is the mismatch error. -/
def runStack : List Char → List Char → Option (List Char)
  | [], stack => some stack
  | c :: rest, stack =>
    if openerChars.contains c then runStack rest (c :: stack)
    else if closerChars.contains c then
      match stack with
      | top :: stack' => if expectedOpener c = some top then runStack rest stack' else none
      | [] => none
    else runStack rest stack

/-- The closing delimiter paired with an opening delimiter. -/
def matchingCloser (b : Char) : Char :=
  if b = '\x7b' then '\x7d' else if b = '(' then ')' else ']'

/-- A character is one of the six recognised delimiters. -/
def isDelim (c : Char) : Bool := openerChars.contains c || closerChars.contains c

/-- The subsequence of delimiter characters of a text. -/
def delimsOf (t : Text) : List Char := t.filter isDelim

/-- Independent specification of proper balancing and nesting: a delimiter
string is balanced when it is empty, or starts with an opener followed by a
balanced body, that opener's matching closer, and a balanced remainder. -/
inductive BalancedDelims : List Char → Prop
  | nil : BalancedDelims []
  | node (b : Char) (l₁ l₂ : List Char) :
      b ∈ openerChars →
      BalancedDelims l₁ → BalancedDelims l₂ →
      BalancedDelims (b :: l₁ ++ matchingCloser b :: l₂)

/- ===== PositionIndex (getFilePositions / getLineColumnFromOffset) ===== -/

/-- Line/column pair as produced by `getLineColumnFromOffset`; `column = none`
models the JS `NaN` produced when `findIndex` returns `-1` and the code reads
`lineStarts[-1]`. -/
structure Position where
  line : Int
  column : Option Int
deriving DecidableEq, Repr

/-- The `lineStarts` computation of `getFilePositions` (lines 524-530):
starts at 0 and pushes a partial sum for every line except the last. -/
def lineStartsAux (p : Nat) : List Text → List Nat
  | [] => [p]
  | [_] => [p]
  | l :: rest => p :: lineStartsAux (p + l.length + 1) rest

/-- The `lineStarts` table for a content string. -/
def computeLineStarts (content : Text) : List Nat := lineStartsAux 0 (splitNl content)

/-- JS `lineStarts.findIndex(...)` of `getLineColumnFromOffset`, returning the
matched index together with the start offset stored there; the predicate is
`offset >= start && offset < nextStart` with `Infinity` after the last line. -/
def findLineIdxAux (offset : Int) : List Nat → Option (Nat × Nat)
  | [] => none
  | s :: rest =>
    let hit := decide ((s : Int) ≤ offset) &&
      (match rest with
       | [] => true
       | n :: _ => decide (offset < (n : Int)))
    if hit then some (0, s)
    else (findLineIdxAux offset rest).map (fun p => (p.1 + 1, p.2))

/-- Embeds `getLineColumnFromOffset(lineStarts, offset)` (lines 561-569).  When
`findIndex` misses, the JS code produces `line = 0` and a `NaN` column. -/
def getLineColumnFromOffset (lineStarts : List Nat) (offset : Int) : Position :=
  match findLineIdxAux offset lineStarts with
  | some (i, s) => ⟨(i : Int) + 1, some (offset - (s : Int) + 1)⟩
  | none => ⟨0, none⟩

/- ===== CharEditor (performCharBasedUpdate, lines 632-690) ===== -/

inductive CharOpKind where
  | replace
  | insert
  | delete
deriving DecidableEq, Repr

/-- A parsed `CharOperationSchema` value (lines 125-143); the schema leaves
`endPosition` and `newContent` optional and `z.number()` admits negatives. -/
structure CharOperation where
  startPosition : Int
  endPosition : Option Int := none
  operation : CharOpKind
  newContent : Option Text := none
deriving DecidableEq, Repr

/-- One insertion step of a stable descending sort by `startPosition`,
matching the stable JS `sort((a, b) => b.startPosition - a.startPosition)`. -/
def insertOpDesc (sorted : List CharOperation) (op : CharOperation) : List CharOperation :=
  match sorted with
  | [] => [op]
  | x :: xs =>
    if x.startPosition < op.startPosition then op :: x :: xs else x :: insertOpDesc xs op

/-- JS `[...operations].sort((a, b) => b.startPosition - a.startPosition)`. -/
def sortOpsDesc (ops : List CharOperation) : List CharOperation := ops.foldl insertOpDesc []

/-- Embeds `validatePosition` (lines 535-539). -/
def validatePosition (position : Int) (fileLength : Nat) : Except String Unit :=
  if position < 0 ∨ position > (fileLength : Int) then
    Except.error ("Position " ++ toString position ++ " out of bounds (0-" ++
      toString fileLength ++ ")")
  else Except.ok ()

/-- Embeds `validatePositions` (lines 541-549); at its only call site `endPosition`
is always defined because of the destructuring default, so it is a required
argument here. -/
def validatePositions (startPosition endPosition : Int) (fileLength : Nat) :
    Except String Unit :=
  match validatePosition startPosition fileLength with
  | Except.error e => Except.error e
  | Except.ok _ =>
    match validatePosition endPosition fileLength with
    | Except.error e => Except.error e
    | Except.ok _ =>
      if endPosition < startPosition then
        Except.error ("End position " ++ toString endPosition ++
          " cannot be before start position " ++ toString startPosition)
      else Except.ok ()

/-- JS `result.split('\n')[pos.line - 1]`: `undefined` (modelled `none`) when
the index is negative or past the end. -/
def contextLineAt (buf : Text) (line : Int) : Option Text :=
  if line - 1 < 0 then none else (splitNl buf).get? (line - 1).toNat

/-- Rendering of `pos.column` inside a template string (`NaN` for the
missing column). -/
def jsNumToString : Option Int → String
  | some n => toString n
  | none => "NaN"

/-- Rendering of a possibly-`undefined` context line. -/
def jsTextOrUndefined : Option Text → String
  | some t => t.asString
  | none => "undefined"

/-- JS `' '.repeat(pos.column - 1)`; `repeat(NaN)` is the empty string.  A
defined column is always at least 1, so the `toNat` clamp is never exercised
on reachable inputs. -/
def jsCaretPad : Option Int → String
  | some n => (List.replicate (n - 1).toNat ' ').asString
  | none => ""

/-- The outer catch message of the operation loop (lines 681-685). -/
def opFailMsg (pos : Position) (ctx : Option Text) (msg : String) : String :=
  "Operation failed at line " ++ toString pos.line ++ ", column " ++
    jsNumToString pos.column ++ ":\n" ++ jsTextOrUndefined ctx ++ "\n" ++
    jsCaretPad pos.column ++ "^ " ++ msg

/-- The structure-validation failure message (lines 669-673); note it is
re-thrown inside the surrounding try block, so the final message seen by the
caller is this text wrapped once more by `opFailMsg`. -/
def structureFailMsg (pos : Position) (ctx : Option Text) (msg : String) : String :=
  "Code structure validation failed at line " ++ toString pos.line ++ ":\n" ++
    jsTextOrUndefined ctx ++ "\n" ++ jsCaretPad pos.column ++ "^ " ++ msg

/-- The operation loop of `performCharBasedUpdate` (lines 643-687): destructure
with defaults, shift by `accumulatedShift`, validate, splice, update the shift,
then (for code files) re-validate the structure of the partial result.  Both
throw sites funnel through the outer catch, producing `opFailMsg`. -/
def charUpdateGo (filePath : Text) (lineStarts : List Nat) :
    List CharOperation → Text → Int → Except String Text
  | [], result, _ => Except.ok result
  | op :: rest, result, shift =>
    let startPosition := op.startPosition
    let endPosition := op.endPosition.getD startPosition
    let newContent := op.newContent.getD []
    let adjustedStart := startPosition + shift
    let adjustedEnd := endPosition + shift
    let pos := getLineColumnFromOffset lineStarts adjustedStart
    let ctx := contextLineAt result pos.line
    match validatePositions adjustedStart adjustedEnd result.length with
    | Except.error e => Except.error (opFailMsg pos ctx e)
    | Except.ok _ =>
      let newResult := result.take adjustedStart.toNat ++
        (if op.operation = CharOpKind.delete then [] else newContent) ++
        result.drop (if op.operation = CharOpKind.insert then adjustedStart.toNat
          else adjustedEnd.toNat)
      let oldLength := adjustedEnd - adjustedStart
      let newLength : Int := if op.operation = CharOpKind.delete then 0
        else (newContent.length : Int)
      let shift' := shift + (newLength - oldLength)
      if isCodeFile filePath then
        match validateCodeStructure newResult with
        | Except.error e => Except.error (opFailMsg pos ctx (structureFailMsg pos ctx e))
        | Except.ok _ => charUpdateGo filePath lineStarts rest newResult shift'
      else charUpdateGo filePath lineStarts rest newResult shift'

/-- Embeds `performCharBasedUpdate(filePath, operations)` (lines 632-690), with the
file's current content passed explicitly instead of read from disk. -/
def performCharBasedUpdate (filePath content : Text) (operations : List CharOperation) :
    Except String Text :=
  charUpdateGo filePath (computeLineStarts content) (sortOpsDesc operations) content 0

/- ===== LineEditor (performLineBasedUpdate, lines 344-419) ===== -/

inductive LineOpType where
  | replaceLines
  | insertLines
  | deleteLines
deriving DecidableEq, Repr

/-- A parsed `LineOperationSchema` value (lines 145-174); the schema requires
`startLine` (and `endLine` when present) to be positive. -/
structure LineOperation where
  type : LineOpType
  startLine : Nat
  endLine : Option Nat := none
  newContent : Option Text := none
deriving DecidableEq, Repr

/-- One step of the upfront validation block (lines 349-359).  The JS
truthiness test `operation.endLine && ...` coincides with presence because the
schema forces `endLine >= 1`. -/
def lineOpValidate (linesLen : Nat) (op : LineOperation) : Except String Unit :=
  if op.startLine > linesLen then
    Except.error ("Invalid line number: startLine " ++ toString op.startLine ++
      " is beyond end of file (" ++ toString linesLen ++ " lines)")
  else
    match op.endLine with
    | some e =>
      if e > linesLen then
        Except.error ("Invalid line number: endLine " ++ toString e ++
          " is beyond end of file (" ++ toString linesLen ++ " lines)")
      else if e < op.startLine then
        Except.error ("Invalid line numbers: endLine (" ++ toString e ++
          ") must be greater than or equal to startLine (" ++ toString op.startLine ++ ")")
      else Except.ok ()
    | none => Except.ok ()

/-- The validation block run over every operation before any is applied. -/
def lineOpsValidate (linesLen : Nat) : List LineOperation → Except String Unit
  | [] => Except.ok ()
  | op :: rest =>
    match lineOpValidate linesLen op with
    | Except.error e => Except.error e
    | Except.ok _ => lineOpsValidate linesLen rest

/-- JS `array.splice(start, deleteCount, ...items)` restricted to the
in-range behaviour used here: `start` is clamped to the array length by
`take`/`drop`, and a deletion count that JS would compute as negative appears
here as a truncated-to-zero `Nat`, which deletes nothing in both semantics. -/
def jsSplice (l : List Text) (start deleteCount : Nat) (items : List Text) : List Text :=
  l.take start ++ items ++ l.drop (start + deleteCount)

/-- JS truthiness of a string option: the empty string is falsy, so
`!operation.newContent` treats `""` like a missing field. -/
def truthyText : Option Text → Option Text
  | some t => if t = [] then none else some t
  | none => none

/-- The switch body applying one line operation (lines 362-404). -/
def applyLineOp (lines : List Text) (op : LineOperation) : Except String (List Text) :=
  match op.type with
  | LineOpType.replaceLines =>
    match truthyText op.newContent, op.endLine with
    | some nc, some e =>
      let deleteCount := min (e - op.startLine + 1) (lines.length - (op.startLine - 1))
      Except.ok (jsSplice lines (op.startLine - 1) deleteCount (splitNl nc))
    | _, _ => Except.error "Replace operation requires newContent and endLine"
  | LineOpType.insertLines =>
    match truthyText op.newContent with
    | some nc =>
      Except.ok (jsSplice lines (min (op.startLine - 1) lines.length) 0 (splitNl nc))
    | none => Except.error "Insert operation requires newContent"
  | LineOpType.deleteLines =>
    match op.endLine with
    | some e =>
      let deleteCount := min (e - op.startLine + 1) (lines.length - (op.startLine - 1))
      Except.ok (jsSplice lines (op.startLine - 1) deleteCount [])
    | none => Except.error "Delete operation requires endLine"

/-- Sequential application of the batch against the shared line array. -/
def lineOpsApply (lines : List Text) : List LineOperation → Except String (List Text)
  | [] => Except.ok lines
  | op :: rest =>
    match applyLineOp lines op with
    | Except.error e => Except.error e
    | Except.ok l2 => lineOpsApply l2 rest

/-- Embeds `performLineBasedUpdate(filePath, operations)` (lines 344-419), with the
file's current content passed explicitly. -/
def performLineBasedUpdate (filePath content : Text) (operations : List LineOperation) :
    Except String Text :=
  let lines := splitNl content
  match lineOpsValidate lines.length operations with
  | Except.error e => Except.error e
  | Except.ok _ =>
    match lineOpsApply lines operations with
    | Except.error e => Except.error e
    | Except.ok modifiedLines =>
      let result := joinNl modifiedLines
      if isCodeFile filePath then
        match validateCodeStructure result with
        | Except.error e =>
          Except.error ("Final code structure validation failed: " ++ e)
        | Except.ok _ => Except.ok result
      else Except.ok result

/- ===== Tool handlers (modify_chars / modify_text cases, lines 935-967) ===== -/

/-- The `modify_chars` handler after path validation: compute the new content,
then write it back; a thrown error reaches the dispatch boundary before any
write, leaving the disk content unchanged.  The first component is the disk
content after the call. -/
def modifyCharsCall (path disk : Text) (ops : List CharOperation) :
    Text × Except String String :=
  match performCharBasedUpdate path disk ops with
  | Except.ok newContent =>
    (newContent, Except.ok ("Successfully updated " ++ path.asString))
  | Except.error e => (disk, Except.error e)

/-- The `modify_text` handler after path validation: compute the new content,
re-validate the structure for `.ts`/`.js`/`.py`/`.json` paths, then write. -/
def modifyTextCall (path disk : Text) (ops : List LineOperation) :
    Text × Except String String :=
  match performLineBasedUpdate path disk ops with
  | Except.error e => (disk, Except.error e)
  | Except.ok newContent =>
    if isStructuredFile path then
      match validateCodeStructure newContent with
      | Except.error e => (disk, Except.error e)
      | Except.ok _ =>
        (newContent, Except.ok ("Successfully updated " ++ path.asString))
    else (newContent, Except.ok ("Successfully updated " ++ path.asString))

/- ===== PathSandbox (validatePath, lines 57-96) ===== -/

/-- POSIX path segment resolution: drop empty and `.` segments, let `..`
consume the previous segment (or stay at the root). -/
def resolveSegsAux (acc : List Text) : List Text → List Text
  | [] => acc.reverse
  | s :: rest =>
    if s = [] ∨ s = ['.'] then resolveSegsAux acc rest
    else if s = ['.', '.'] then resolveSegsAux acc.tail rest
    else resolveSegsAux (s :: acc) rest

/-- Models `path.resolve` and `path.normalize` for absolute POSIX paths. -/
def posixResolveAbs (p : Text) : Text :=
  '/' :: List.intercalate ['/'] (resolveSegsAux [] (splitOnChar '/' p))

/-- Embeds `normalizePath(p) = path.normalize(p).toLowerCase()` (lines 27-29). -/
def normalizePath (p : Text) : Text := (posixResolveAbs p).map Char.toLower

/-- Embeds `allowedDirectories.some(dir => q.startsWith(dir))`: the plain
string-prefix test used by `validatePath`. -/
def anyRootMatches (allowed : List Text) (q : Text) : Bool :=
  allowed.any (fun dir => dir.isPrefixOf q)

/-- Embeds `allowedDirectories.join(', ')`. -/
def joinAllowed (allowed : List Text) : String :=
  String.intercalate ", " (allowed.map List.asString)

/-- Models `path.dirname` for an already-normalized absolute POSIX path. -/
def posixDirname (p : Text) : Text :=
  match (resolveSegsAux [] (splitOnChar '/' p)).dropLast with
  | [] => ['/']
  | segs => '/' :: List.intercalate ['/'] segs

/-- The new-file branch of `validatePath` (lines 82-94).  The AccessDenied
throw for a disallowed parent is caught by the inner catch block, so both
failure modes surface as the ParentNotFound message. -/
def validatePathParent (allowed : List Text) (realpath : Text → Option Text)
    (absolute : Text) : Except String Text :=
  let parentDir := posixDirname absolute
  match realpath parentDir with
  | some realParent =>
    if anyRootMatches allowed (normalizePath realParent) then Except.ok absolute
    else Except.error ("Parent directory does not exist: " ++ parentDir.asString)
  | none => Except.error ("Parent directory does not exist: " ++ parentDir.asString)

/-- Embeds `validatePath(requestedPath)` (lines 57-96) for an absolute POSIX request
(`expandHome` is the identity on paths that do not begin with a tilde).  The
AccessDenied throw for a disallowed symlink target is caught by the
surrounding catch block and falls through to the parent-directory branch. -/
def validatePath (allowed : List Text) (realpath : Text → Option Text)
    (requested : Text) : Except String Text :=
  let absolute := posixResolveAbs requested
  let normalizedRequested := normalizePath absolute
  if !(anyRootMatches allowed normalizedRequested) then
    Except.error ("Access denied - path outside allowed directories: " ++
      absolute.asString ++ " not in " ++ joinAllowed allowed)
  else
    match realpath absolute with
    | some realPath =>
      if anyRootMatches allowed (normalizePath realPath) then Except.ok realPath
      else validatePathParent allowed realpath absolute
    | none => validatePathParent allowed realpath absolute

/-- The containment relation the spec demands of an authorized path: equal to
a root or strictly below it across a separator boundary. -/
def isDescendantOrSelf (root p : Text) : Bool :=
  p == root || (root ++ ['/']).isPrefixOf p

/- ===== Spec-side definition for the CharEditor refinement claim ===== -/

/-- Application of one char operation at its original, unshifted coordinates.
This follows the spec's words ("each pending operation is applied at its
original coordinates"), for comparison with `charUpdateGo`. -/
def specApplyOp (content : Text) (op : CharOperation) : Text :=
  let startPosition := op.startPosition
  let endPosition := op.endPosition.getD startPosition
  let newContent := op.newContent.getD []
  content.take startPosition.toNat ++
    (if op.operation = CharOpKind.delete then [] else newContent) ++
    content.drop (if op.operation = CharOpKind.insert then startPosition.toNat
      else endPosition.toNat)

/-- Spec-side batch semantics: sort descending, then apply every operation at
its original coordinates (equivalently, for non-overlapping batches, apply
each operation independently against the original content). -/
def specIndependentApply (content : Text) (ops : List CharOperation) : Text :=
  (sortOpsDesc ops).foldl specApplyOp content

/- ===== Theorems ===== -/

/-- C1: the claim is refuted by the code.  With AllowedRoot `/data/proj` and
an existing sibling directory `/data/project2` (realpath is the identity),
`validatePath` succeeds and returns `/data/project2`, which is neither equal
to nor a descendant of the configured root: the `startsWith` allow-list test
has no segment-boundary check. -/
theorem validatePath_sibling_prefix_escape :
    validatePath ["/data/proj".toList] (fun p => some p) "/data/project2".toList =
      Except.ok "/data/project2".toList ∧
    isDescendantOrSelf "/data/proj".toList "/data/project2".toList = false := by
  constructor
  · decide
  · decide

/-- C2: the claim is refuted by the code.  On content `abcdef` with the
non-overlapping batch (insert `XX` at 4, replace `[0,1)` by `Y`),
`performCharBasedUpdate` adds `accumulatedShift` to the later (leftward)
operation's coordinates and produces `abYdXXef`, while applying each
operation at its original coordinates (the spec-side semantics) produces
`YbcdXXef`: the shift counter does change where an operation is applied. -/
theorem charUpdate_shift_misapplies :
    performCharBasedUpdate "f.txt".toList "abcdef".toList
      [⟨4, none, CharOpKind.insert, some "XX".toList⟩,
       ⟨0, some 1, CharOpKind.replace, some "Y".toList⟩] =
      Except.ok "abYdXXef".toList ∧
    specIndependentApply "abcdef".toList
      [⟨4, none, CharOpKind.insert, some "XX".toList⟩,
       ⟨0, some 1, CharOpKind.replace, some "Y".toList⟩] = "YbcdXXef".toList ∧
    "abYdXXef".toList ≠ "YbcdXXef".toList := by
  refine ⟨by decide, by decide, by decide⟩

/-- C3 counterexample: an `insertLines` with `startLine` one past the last
line of a one-line file fails the upfront validation instead of appending;
and on a `.ts` file a char insert at `content.length` whose result is
unbalanced fails instead of appending. -/
theorem insert_at_end_cex :
    performLineBasedUpdate "a.txt".toList "alpha".toList
      [⟨LineOpType.insertLines, 2, none, some "x".toList⟩] =
      Except.error "Invalid line number: startLine 2 is beyond end of file (1 lines)" ∧
    performCharBasedUpdate "a.ts".toList "a".toList
      [⟨1, none, CharOpKind.insert, some "(".toList⟩] =
      Except.error ("Operation failed at line 1, column 2:\na\n ^ " ++
        "Code structure validation failed at line 1:\na\n ^ Unclosed brackets: (") := by
  refine ⟨by decide, by decide⟩

/-- C5 counterexample: an offset strictly beyond the content length does not
fail; the lookup happily returns a position on the last line. -/
theorem offset_lookup_no_error_cex :
    ("ab".toList : Text).length < 5 ∧
    getLineColumnFromOffset (computeLineStarts "ab".toList) 5 = ⟨1, some 6⟩ := by
  refine ⟨by decide, by decide⟩

/-- C6 counterexample: a schema-accepted negative `startPosition` produces a
positional error whose message reports line 0 and column NaN with an
`undefined` context line, so not every positional error carries a 1-based
line, 1-based column and the offending line's text. -/
theorem charError_line0_cex :
    performCharBasedUpdate "a.txt".toList "ab".toList
      [⟨-1, none, CharOpKind.insert, some "x".toList⟩] =
      Except.error "Operation failed at line 0, column NaN:\nundefined\n^ Position -1 out of bounds (0-2)" := by
  decide

/-- C9 counterexample: a `replaceLines` whose `newContent` is the empty
string is rejected by the JS truthiness test (`!operation.newContent`)
instead of substituting one empty line. -/
theorem replaceLines_empty_newContent_cex :
    performLineBasedUpdate "a.txt".toList "alpha".toList
      [⟨LineOpType.replaceLines, 1, some 1, some []⟩] =
      Except.error "Replace operation requires newContent and endLine" := by
  decide

/-- C10 counterexample: an insert's `endPosition` is not ignored when it is
out of range; position validation fails the operation instead of inserting. -/
theorem insert_endPosition_validated_cex :
    performCharBasedUpdate "a.txt".toList "ab".toList
      [⟨0, some 5, CharOpKind.insert, some "X".toList⟩] =
      Except.error "Operation failed at line 1, column 1:\nab\n^ Position 5 out of bounds (0-2)" := by
  decide

/-- Membership form of `List.contains` for characters. -/
lemma containsChar_iff {c : Char} {l : List Char} : l.contains c = true ↔ c ∈ l := by
  simp [List.contains]

/-- The matching closer of an opener is a closer, is not an opener, and maps
back to its opener through `expectedOpener`. -/
lemma matchingCloser_props {b : Char} (hb : b ∈ openerChars) :
    matchingCloser b ∉ openerChars ∧ matchingCloser b ∈ closerChars ∧
    expectedOpener (matchingCloser b) = some b := by
  fin_cases hb <;> exact ⟨by decide, by decide, by decide⟩

/-- For an opener `c` and a closer `x`, `expectedOpener x = some c` holds
exactly when `x` is `c`'s matching closer. -/
lemma expectedOpener_eq_iff {c x : Char} (hc : c ∈ openerChars)
    (hx : x ∈ closerChars) :
    expectedOpener x = some c ↔ x = matchingCloser c := by
  fin_cases hc <;> fin_cases hx <;> decide

/-- A closer always has a defined expected opener, which is an opener. -/
lemma closer_expected {x : Char} (hx : x ∈ closerChars) :
    ∃ b, expectedOpener x = some b ∧ b ∈ openerChars := by
  fin_cases hx
  · exact ⟨'\x7b', by decide, by decide⟩
  · exact ⟨'(', by decide, by decide⟩
  · exact ⟨'[', by decide, by decide⟩

/-- No character is both an opener and a closer. -/
lemma opener_not_closer {c : Char} (hc : c ∈ openerChars) : c ∉ closerChars := by
  fin_cases hc <;> decide

/-- The scanner `structGo` accepts exactly when the message-free machine empties its
stack. -/
lemma structGo_ok_iff : ∀ (l st : List Char),
    structGo l st = Except.ok () ↔ runStack l st = some [] := by
  intro l
  induction l with
  | nil =>
    intro st
    cases st with
    | nil => simp [structGo, runStack]
    | cons h t => simp [structGo, runStack]
  | cons c rest ih =>
    intro st
    by_cases h1 : c ∈ openerChars
    · simp [structGo, runStack, h1, ih]
    · by_cases h2 : c ∈ closerChars
      · obtain ⟨b, hb, hbo⟩ := closer_expected h2
        cases st with
        | nil =>
          simp [structGo, runStack, h1, h2, hb]
        | cons top st' =>
          by_cases h3 : expectedOpener c = some top
          · simp [structGo, runStack, h1, h2, h3, ih]
          · have h3' : ¬ (some top = expectedOpener c) := fun hh => h3 hh.symm
            simp [structGo, runStack, h1, h2, h3, h3']
      · simp [structGo, runStack, h1, h2, ih]

/-- The machine on a concatenation runs the two parts in sequence. -/
lemma runStack_append : ∀ (l₁ l₂ st : List Char),
    runStack (l₁ ++ l₂) st = (runStack l₁ st).bind (fun st' => runStack l₂ st') := by
  intro l₁
  induction l₁ with
  | nil => intro l₂ st; simp [runStack]
  | cons c rest ih =>
    intro l₂ st
    by_cases h1 : c ∈ openerChars
    · simp [runStack, h1, ih]
    · by_cases h2 : c ∈ closerChars
      · cases st with
        | nil => simp [runStack, h1, h2]
        | cons top st' =>
          by_cases h3 : expectedOpener c = some top
          · simp [runStack, h1, h2, h3, ih]
          · simp [runStack, h1, h2, h3]
      · simp [runStack, h1, h2, ih]

/-- Padding the bottom of the stack does not change a successful run. -/
lemma runStack_pad : ∀ (l st st' ext : List Char),
    runStack l st = some st' → runStack l (st ++ ext) = some (st' ++ ext) := by
  intro l
  induction l with
  | nil => intro st st' ext h; simp [runStack] at h ⊢; rw [h]
  | cons c rest ih =>
    intro st st' ext h
    by_cases h1 : c ∈ openerChars
    · simp [runStack, h1] at h ⊢
      exact ih (c :: st) st' ext h
    · by_cases h2 : c ∈ closerChars
      · cases st with
        | nil => simp [runStack, h1, h2] at h
        | cons top rest' =>
          by_cases h3 : expectedOpener c = some top
          · simp [runStack, h1, h2, h3] at h ⊢
            exact ih rest' st' ext h
          · simp [runStack, h1, h2, h3] at h
      · simp [runStack, h1, h2] at h ⊢
        exact ih st st' ext h

/-- A balanced delimiter string leaves any stack unchanged. -/
lemma runStack_balanced_some {l : List Char} (h : BalancedDelims l) :
    ∀ st, runStack l st = some st := by
  induction h with
  | nil => intro st; simp [runStack]
  | node b l₁ l₂ hb h₁ h₂ ih₁ ih₂ =>
    intro st
    obtain ⟨hno, hcl, hexp⟩ := matchingCloser_props hb
    have step : runStack (b :: l₁ ++ matchingCloser b :: l₂) st =
        runStack (l₁ ++ matchingCloser b :: l₂) (b :: st) := by
      simp [runStack, hb]
    rw [step, runStack_append, ih₁ (b :: st)]
    simp [runStack, hno, hcl, hexp, ih₂ st]

/-- Splitting lemma: a run that starts with opener `c` on top of the stack
and ends with an empty stack passes through the point where `c`'s matching
closer is consumed. -/
lemma runStack_split : ∀ (n : Nat) (t : List Char) (c : Char) (st : List Char),
    t.length ≤ n → c ∈ openerChars → runStack t (c :: st) = some [] →
    ∃ l₁ l₂, t = l₁ ++ matchingCloser c :: l₂ ∧
      runStack l₁ [] = some [] ∧ runStack l₂ st = some [] := by
  intro n
  induction n with
  | zero =>
    intro t c st hlen hc h
    have ht : t = [] := List.eq_nil_of_length_eq_zero (Nat.le_zero.mp hlen)
    subst ht
    simp [runStack] at h
  | succ n ih =>
    intro t c st hlen hc h
    cases t with
    | nil => simp [runStack] at h
    | cons x t' =>
      have hlen' : t'.length ≤ n := by
        simpa using Nat.le_of_succ_le_succ hlen
      by_cases hx1 : x ∈ openerChars
      · -- x is an opener: split the inner run, then split the remainder
        have h' : runStack t' (x :: c :: st) = some [] := by
          simpa [runStack, hx1] using h
        obtain ⟨u₁, u₂, hshape, hu₁, hu₂⟩ := ih t' x (c :: st) hlen' hx1 h'
        have hu₂len : u₂.length ≤ n := by
          have h2 : u₂.length ≤ t'.length := by
            subst hshape; simp [List.length_append]; omega
          omega
        obtain ⟨v₁, v₂, hshape2, hv₁, hv₂⟩ := ih u₂ c st (by omega) hc hu₂
        refine ⟨x :: (u₁ ++ matchingCloser x :: v₁), v₂, ?_, ?_, hv₂⟩
        · subst hshape hshape2
          simp [List.append_assoc]
        · obtain ⟨hno, hcl, hexp⟩ := matchingCloser_props hx1
          have hpad := runStack_pad u₁ [] [] [x] hu₁
          simp only [List.nil_append] at hpad
          have step : runStack (x :: (u₁ ++ matchingCloser x :: v₁)) [] =
              runStack (u₁ ++ matchingCloser x :: v₁) [x] := by
            simp [runStack, hx1]
          rw [step, runStack_append, hpad]
          simp [runStack, hno, hcl, hexp, hv₁]
      · by_cases hx2 : x ∈ closerChars
        · -- x is a closer: it must be c's matching closer
          have h' : (if expectedOpener x = some c then runStack t' st else none) =
              some [] := by
            simpa [runStack, hx1, hx2] using h
          by_cases h3 : expectedOpener x = some c
          · rw [if_pos h3] at h'
            have hxm : x = matchingCloser c := (expectedOpener_eq_iff hc hx2).mp h3
            exact ⟨[], t', by simp [hxm], by simp [runStack], h'⟩
          · rw [if_neg h3] at h'
            exact absurd h' (by simp)
        · -- x is not a delimiter: it is skipped
          have h' : runStack t' (c :: st) = some [] := by
            simpa [runStack, hx1, hx2] using h
          obtain ⟨l₁, l₂, hshape, h₁, h₂⟩ := ih t' c st hlen' hc h'
          refine ⟨x :: l₁, l₂, by simp [hshape], ?_, h₂⟩
          simp [runStack, hx1, hx2, h₁]

/-- A delimiter-only string accepted by the machine is balanced. -/
lemma runStack_to_balanced : ∀ (n : Nat) (l : List Char),
    l.length ≤ n → (∀ x ∈ l, isDelim x = true) → runStack l [] = some [] →
    BalancedDelims l := by
  intro n
  induction n with
  | zero =>
    intro l hlen _ _
    have hl : l = [] := List.eq_nil_of_length_eq_zero (Nat.le_zero.mp hlen)
    subst hl
    exact BalancedDelims.nil
  | succ n ih =>
    intro l hlen hdel h
    cases l with
    | nil => exact BalancedDelims.nil
    | cons x t =>
      have hx : isDelim x = true := hdel x (List.mem_cons_self x t)
      by_cases hx1 : x ∈ openerChars
      · have h' : runStack t (x :: []) = some [] := by
          simpa [runStack, hx1] using h
        obtain ⟨l₁, l₂, hshape, h₁, h₂⟩ :=
          runStack_split n t x [] (by simpa using Nat.le_of_succ_le_succ hlen) hx1 h'
        have hmem : ∀ y ∈ t, isDelim y = true := fun y hy =>
          hdel y (List.mem_cons_of_mem x hy)
        have hd₁ : ∀ y ∈ l₁, isDelim y = true := fun y hy =>
          hmem y (by subst hshape; exact List.mem_append_left _ hy)
        have hd₂ : ∀ y ∈ l₂, isDelim y = true := fun y hy =>
          hmem y (by subst hshape; exact List.mem_append_right _ (List.mem_cons_of_mem _ hy))
        have hlen₁ : l₁.length ≤ n := by
          have := hlen
          subst hshape
          simp [List.length_append] at this ⊢
          omega
        have hlen₂ : l₂.length ≤ n := by
          have := hlen
          subst hshape
          simp [List.length_append] at this ⊢
          omega
        have b₁ := ih l₁ hlen₁ hd₁ h₁
        have b₂ := ih l₂ hlen₂ hd₂ h₂
        rw [hshape]
        exact BalancedDelims.node x l₁ l₂ hx1 b₁ b₂
      · have hx2 : x ∈ closerChars := by
          have := hx
          simp [isDelim, List.contains] at this
          rcases this with h1 | h2
          · exact absurd h1 hx1
          · exact h2
        simp [runStack, hx1, hx2] at h

/-- Non-delimiter characters do not affect the machine. -/
lemma runStack_filter : ∀ (l st : List Char),
    runStack l st = runStack (delimsOf l) st := by
  intro l
  induction l with
  | nil => intro st; simp [runStack, delimsOf]
  | cons c rest ih =>
    intro st
    by_cases hd : isDelim c = true
    · have hdel : delimsOf (c :: rest) = c :: delimsOf rest := by
        simp [delimsOf, hd]
      rw [hdel]
      by_cases h1 : c ∈ openerChars
      · simp [runStack, h1, ih]
      · by_cases h2 : c ∈ closerChars
        · cases st with
          | nil => simp [runStack, h1, h2]
          | cons top st' =>
            by_cases h3 : expectedOpener c = some top
            · simp [runStack, h1, h2, h3, ih]
            · simp [runStack, h1, h2, h3]
        · simp [runStack, h1, h2, ih]
    · have h1 : c ∉ openerChars := fun hm => hd (by simp [isDelim, List.contains, hm])
      have h2 : c ∉ closerChars := fun hm => hd (by simp [isDelim, List.contains, hm])
      have hdel : delimsOf (c :: rest) = delimsOf rest := by
        simp [delimsOf, hd]
      rw [hdel, ← ih st]
      simp [runStack, h1, h2]

/-- Every error of the bracket scan is either a mismatched-closer message
naming the offending character or a leftover-opener message listing the
unclosed openers. -/
lemma structGo_error_shape : ∀ (l st : List Char) (e : String),
    (∀ x ∈ st, x ∈ openerChars) → structGo l st = Except.error e →
    (∃ c, c ∈ closerChars ∧ e = closeErrorMsg (expectedOpener c) c) ∨
    (∃ stk, stk ≠ [] ∧ (∀ x ∈ stk, x ∈ openerChars) ∧ e = unclosedMsg stk) := by
  intro l
  induction l with
  | nil =>
    intro st e hst h
    cases st with
    | nil => simp [structGo] at h
    | cons top rest =>
      right
      refine ⟨top :: rest, by simp, hst, ?_⟩
      have : structGo [] (top :: rest) = Except.error (unclosedMsg (top :: rest)) := by
        simp [structGo]
      rw [this] at h
      exact (Except.error.inj h).symm
  | cons c rest ih =>
    intro st e hst h
    by_cases h1 : c ∈ openerChars
    · have h' : structGo rest (c :: st) = Except.error e := by
        simpa [structGo, h1] using h
      exact ih (c :: st) e (fun x hx => by
        rcases List.mem_cons.mp hx with rfl | hx'
        · exact h1
        · exact hst x hx') h'
    · by_cases h2 : c ∈ closerChars
      · by_cases h3 : st.head? = expectedOpener c
        · have h' : structGo rest st.tail = Except.error e := by
            simpa [structGo, h1, h2, h3] using h
          exact ih st.tail e (fun x hx => hst x (List.mem_of_mem_tail hx)) h'
        · left
          refine ⟨c, h2, ?_⟩
          have : structGo (c :: rest) st = Except.error (closeErrorMsg (expectedOpener c) c) := by
            simp [structGo, h1, h2, h3]
          rw [this] at h
          exact (Except.error.inj h).symm
      · have h' : structGo rest st = Except.error e := by
          simpa [structGo, h1, h2] using h
        exact ih st e hst h'

/-- C7: `validateCodeStructure` succeeds exactly when the subsequence of
delimiter characters of the content is properly balanced and nested, and
every failure is either a mismatched-closer error naming the unexpected
character or a leftover-opener error naming the unclosed characters. -/
theorem validateCodeStructure_correct (content : Text) :
    (validateCodeStructure content = Except.ok () ↔ BalancedDelims (delimsOf content)) ∧
    (∀ e, validateCodeStructure content = Except.error e →
      (∃ c, c ∈ closerChars ∧ e = closeErrorMsg (expectedOpener c) c) ∨
      (∃ stk, stk ≠ [] ∧ (∀ x ∈ stk, x ∈ openerChars) ∧ e = unclosedMsg stk)) := by
  constructor
  · constructor
    · intro h
      have hr : runStack content [] = some [] := (structGo_ok_iff content []).mp h
      rw [runStack_filter] at hr
      exact runStack_to_balanced (delimsOf content).length (delimsOf content)
        (Nat.le_refl _) (fun x hx => List.of_mem_filter hx) hr
    · intro hb
      have hr : runStack (delimsOf content) [] = some [] := runStack_balanced_some hb []
      rw [← runStack_filter] at hr
      exact (structGo_ok_iff content []).mpr hr
  · intro e he
    exact structGo_error_shape content [] e (by simp) he

/-- Witness for C7 at concrete inputs: `(ab)` is accepted and hence balanced,
and the failure on `]` is a mismatched-closer message. -/
theorem validateCodeStructure_correct_witness :
    BalancedDelims (delimsOf "(ab)".toList) ∧
    ((∃ c, c ∈ closerChars ∧
        "Unbalanced brackets: expected [, got ]" = closeErrorMsg (expectedOpener c) c) ∨
     (∃ stk, stk ≠ [] ∧ (∀ x ∈ stk, x ∈ openerChars) ∧
        "Unbalanced brackets: expected [, got ]" = unclosedMsg stk)) :=
  ⟨(validateCodeStructure_correct "(ab)".toList).1.mp (by decide),
   (validateCodeStructure_correct "]".toList).2 _ (by decide)⟩

/-- The table `lineStartsAux` always produces its first argument as the list head. -/
lemma lineStartsAux_head : ∀ (lines : List Text) (p : Nat),
    ∃ t, lineStartsAux p lines = p :: t := by
  intro lines p
  match lines with
  | [] => exact ⟨[], rfl⟩
  | [a] => exact ⟨[], rfl⟩
  | a :: b :: t => exact ⟨_, rfl⟩

/-- Every entry of `lineStartsAux p lines` is at least `p`. -/
lemma lineStartsAux_ge : ∀ (lines : List Text) (p x : Nat),
    x ∈ lineStartsAux p lines → p ≤ x := by
  intro lines
  induction lines with
  | nil => intro p x hx; simp [lineStartsAux] at hx; omega
  | cons a rest ih =>
    intro p x hx
    cases rest with
    | nil => simp [lineStartsAux] at hx; omega
    | cons b t =>
      simp only [lineStartsAux] at hx
      rcases List.mem_cons.mp hx with rfl | hx'
      · exact Nat.le_refl _
      · have := ih (p + a.length + 1) x hx'
        omega

/-- The line-start offsets are strictly increasing. -/
lemma lineStartsAux_pairwise : ∀ (lines : List Text) (p : Nat),
    (lineStartsAux p lines).Pairwise (fun a b => a < b) := by
  intro lines
  induction lines with
  | nil => intro p; simp [lineStartsAux]
  | cons a rest ih =>
    intro p
    cases rest with
    | nil => simp [lineStartsAux]
    | cons b t =>
      simp only [lineStartsAux]
      refine List.Pairwise.cons ?_ (ih (p + a.length + 1))
      intro x hx
      have := lineStartsAux_ge (b :: t) (p + a.length + 1) x hx
      omega

/-- Unfolding equation for `findLineIdxAux` on a non-empty list. -/
lemma findLineIdxAux_cons (offset : Int) (s : Nat) (rest : List Nat) :
    findLineIdxAux offset (s :: rest) =
      if (decide ((s : Int) ≤ offset) &&
          (match rest with
           | [] => true
           | n :: _ => decide (offset < (n : Int)))) = true
      then some (0, s)
      else (findLineIdxAux offset rest).map (fun p => (p.1 + 1, p.2)) := rfl

/-- Specification of the JS `findIndex` scan over a strictly increasing list
whose head is at most the offset: it returns the greatest index whose stored
start is at most the offset. -/
lemma findLineIdx_spec : ∀ (t0 : List Nat) (h0 : Nat) (offset : Int),
    ((h0 :: t0) : List Nat).Pairwise (fun a b => a < b) → (h0 : Int) ≤ offset →
    ∃ i s, findLineIdxAux offset (h0 :: t0) = some (i, s) ∧
      (h0 :: t0).get? i = some s ∧ (s : Int) ≤ offset ∧
      ∀ j u, (h0 :: t0).get? j = some u → (u : Int) ≤ offset → j ≤ i := by
  intro t0
  induction t0 with
  | nil =>
    intro h0 offset _ hh
    refine ⟨0, h0, ?_, rfl, hh, ?_⟩
    · rw [findLineIdxAux_cons]
      simp [hh]
    · intro j u hj _
      cases j with
      | zero => exact Nat.le_refl 0
      | succ j' => simp at hj
  | cons n t1 ih =>
    intro h0 offset hpw hh
    by_cases hlt : offset < (n : Int)
    · refine ⟨0, h0, ?_, rfl, hh, ?_⟩
      · rw [findLineIdxAux_cons]
        simp [hh, hlt]
      · intro j u hj hu
        cases j with
        | zero => exact Nat.le_refl 0
        | succ j' =>
          exfalso
          have hj' : ((n :: t1) : List Nat).get? j' = some u := by simpa using hj
          have hmem : u ∈ n :: t1 := List.get?_mem hj'
          have hrel : ∀ x ∈ t1, n < x := (List.pairwise_cons.mp hpw.tail).1
          have hnu : n ≤ u := by
            rcases List.mem_cons.mp hmem with rfl | hx
            · exact Nat.le_refl _
            · exact Nat.le_of_lt (hrel u hx)
          have : (n : Int) ≤ (u : Int) := by exact_mod_cast hnu
          omega
    · have hn : (n : Int) ≤ offset := Int.not_lt.mp hlt
      have hpw' : ((n :: t1) : List Nat).Pairwise (fun a b => a < b) := hpw.tail
      obtain ⟨i', s', hfind, hget, hs, hmax⟩ := ih n offset hpw' hn
      refine ⟨i' + 1, s', ?_, hget, hs, ?_⟩
      · rw [findLineIdxAux_cons]
        simp [hlt, hfind]
      · intro j u hj hu
        cases j with
        | zero => exact Nat.zero_le _
        | succ j' =>
          exact Nat.succ_le_succ (hmax j' u (by simpa using hj) hu)

/-- C5 (amended): `getLineColumnFromOffset` performs no range validation; for
every non-negative offset — including offsets beyond the content length — it
returns the 1-based position on the greatest line index `i` such that
`lineStarts[i] <= offset`, with column `offset - lineStarts[i] + 1`. -/
theorem offset_lookup_greatest_line (content : Text) (offset : Nat) :
    ∃ i s, findLineIdxAux (offset : Int) (computeLineStarts content) = some (i, s) ∧
      getLineColumnFromOffset (computeLineStarts content) (offset : Int) =
        ⟨(i : Int) + 1, some ((offset : Int) - (s : Int) + 1)⟩ ∧
      (computeLineStarts content).get? i = some s ∧ s ≤ offset ∧
      ∀ j u, (computeLineStarts content).get? j = some u → u ≤ offset → j ≤ i := by
  obtain ⟨t, ht⟩ := lineStartsAux_head (splitNl content) 0
  have hpw := lineStartsAux_pairwise (splitNl content) 0
  have hls : computeLineStarts content = 0 :: t := ht
  rw [ht] at hpw
  rw [hls]
  obtain ⟨i, s, hfind, hget, hs, hmax⟩ :=
    findLineIdx_spec t 0 (offset : Int) hpw (by exact_mod_cast Nat.zero_le offset)
  refine ⟨i, s, hfind, ?_, hget, by exact_mod_cast hs, ?_⟩
  · unfold getLineColumnFromOffset
    rw [hfind]
  · intro j u hj hu
    exact hmax j u hj (by exact_mod_cast hu)

/-- Witness for C5 at a concrete input. -/
theorem offset_lookup_greatest_line_witness :
    ∃ i s, findLineIdxAux ((3 : Nat) : Int) (computeLineStarts "a\nb".toList) = some (i, s) ∧
      getLineColumnFromOffset (computeLineStarts "a\nb".toList) ((3 : Nat) : Int) =
        ⟨(i : Int) + 1, some (((3 : Nat) : Int) - (s : Int) + 1)⟩ ∧
      (computeLineStarts "a\nb".toList).get? i = some s ∧ s ≤ 3 ∧
      ∀ j u, (computeLineStarts "a\nb".toList).get? j = some u → u ≤ 3 → j ≤ i :=
  offset_lookup_greatest_line "a\nb".toList 3

/-- The check `validatePositions` accepts in-range, ordered positions. -/
lemma validatePositions_ok {sp ep : Int} {len : Nat}
    (h0 : 0 ≤ sp) (h1 : sp ≤ ep) (h2 : ep ≤ (len : Int)) :
    validatePositions sp ep len = Except.ok () := by
  have e1 : validatePosition sp len = Except.ok () := by
    unfold validatePosition
    rw [if_neg (by omega)]
  have e2 : validatePosition ep len = Except.ok () := by
    unfold validatePosition
    rw [if_neg (by omega)]
  unfold validatePositions
  rw [e1, e2, if_neg (by omega)]

/-- On a code file, a successful char-update run returns either its input
buffer untouched (empty batch) or a structurally validated buffer. -/
lemma charUpdateGo_ok_balanced : ∀ (fp : Text) (ls : List Nat)
    (ops : List CharOperation) (buf : Text) (sh : Int) (c : Text),
    isCodeFile fp = true → charUpdateGo fp ls ops buf sh = Except.ok c →
    c = buf ∨ validateCodeStructure c = Except.ok () := by
  intro fp ls ops
  induction ops with
  | nil =>
    intro buf sh c _ h
    simp only [charUpdateGo] at h
    exact Or.inl (Except.ok.inj h).symm
  | cons op rest ih =>
    intro buf sh c hcode h
    simp only [charUpdateGo] at h
    split at h
    · exact absurd h (by simp)
    · split at h
      · split at h
        · exact absurd h (by simp)
        · rcases ih _ _ _ hcode h with rfl | hbal
          · rename_i a heq
            exact Or.inr heq
          · exact Or.inr hbal
      · rename_i hnc
        exact absurd hcode (by simpa using hnc)

/-- Every error of the char-update loop is an `opFailMsg` built from the
offset-to-position lookup at the failing adjusted start offset and the
corresponding line of the current buffer. -/
lemma charUpdateGo_error_shape : ∀ (fp : Text) (ls : List Nat)
    (ops : List CharOperation) (buf : Text) (sh : Int) (e : String),
    charUpdateGo fp ls ops buf sh = Except.error e →
    ∃ (s : Int) (b : Text) (d : String),
      e = opFailMsg (getLineColumnFromOffset ls s)
            (contextLineAt b (getLineColumnFromOffset ls s).line) d := by
  intro fp ls ops
  induction ops with
  | nil =>
    intro buf sh e h
    simp only [charUpdateGo] at h
    exact absurd h (by simp)
  | cons op rest ih =>
    intro buf sh e h
    simp only [charUpdateGo] at h
    split at h
    · exact ⟨op.startPosition + sh, buf, _, (Except.error.inj h).symm⟩
    · split at h
      · split at h
        · exact ⟨op.startPosition + sh, buf, _, (Except.error.inj h).symm⟩
        · exact ih _ _ _ h
      · exact ih _ _ _ h

/-- For a non-negative offset the lookup over a real line-start table yields
a 1-based line and a 1-based column. -/
lemma getLineColumn_pos (content : Text) (s : Int) (hs : 0 ≤ s) :
    1 ≤ (getLineColumnFromOffset (computeLineStarts content) s).line ∧
    ∃ k, (getLineColumnFromOffset (computeLineStarts content) s).column = some k ∧ 1 ≤ k := by
  obtain ⟨t, ht⟩ := lineStartsAux_head (splitNl content) 0
  have hpw := lineStartsAux_pairwise (splitNl content) 0
  rw [ht] at hpw
  have hls : computeLineStarts content = 0 :: t := ht
  rw [hls]
  obtain ⟨i, st, hfind, hget, hle, _⟩ :=
    findLineIdx_spec t 0 s hpw (by exact_mod_cast hs)
  unfold getLineColumnFromOffset
  rw [hfind]
  refine ⟨by simp, s - (st : Int) + 1, rfl, by omega⟩

/-- A single char operation with validated positions on a non-code file
splices exactly as the source's `substring` expression prescribes. -/
lemma charUpdate_single (fp content : Text) (op : CharOperation)
    (hfp : isCodeFile fp = false)
    (h0 : 0 ≤ op.startPosition)
    (h1 : op.startPosition ≤ op.endPosition.getD op.startPosition)
    (h2 : op.endPosition.getD op.startPosition ≤ (content.length : Int)) :
    performCharBasedUpdate fp content [op] =
      Except.ok (content.take op.startPosition.toNat ++
        (if op.operation = CharOpKind.delete then [] else op.newContent.getD []) ++
        content.drop (if op.operation = CharOpKind.insert then op.startPosition.toNat
          else (op.endPosition.getD op.startPosition).toNat)) := by
  have hsort : sortOpsDesc [op] = [op] := rfl
  unfold performCharBasedUpdate
  rw [hsort]
  simp only [charUpdateGo, Int.add_zero]
  rw [validatePositions_ok h0 h1 h2]
  simp [hfp, charUpdateGo, List.append_assoc]

/-- C3 (amended): a char `insert` at `startPosition = content.length` appends
`newContent` (stated for files not subject to the `.ts`/`.js` structural
check, which can reject the appended result); a line `insertLines` with
`startLine` one past the last line fails the upfront validation with an
invalid-line-number error instead of appending. -/
theorem insert_at_end_behavior (path content nc lpath lcontent lnc : Text)
    (hpath : isCodeFile path = false) :
    performCharBasedUpdate path content
      [⟨(content.length : Int), none, CharOpKind.insert, some nc⟩] =
      Except.ok (content ++ nc) ∧
    performLineBasedUpdate lpath lcontent
      [⟨LineOpType.insertLines, (splitNl lcontent).length + 1, none, some lnc⟩] =
      Except.error ("Invalid line number: startLine " ++
        toString ((splitNl lcontent).length + 1) ++ " is beyond end of file (" ++
        toString (splitNl lcontent).length ++ " lines)") := by
  constructor
  · have h := charUpdate_single path content
      ⟨(content.length : Int), none, CharOpKind.insert, some nc⟩ hpath
      (by simp) (by simp) (by simp)
    rw [h]
    simp
  · have hv : lineOpValidate (splitNl lcontent).length
        ⟨LineOpType.insertLines, (splitNl lcontent).length + 1, none, some lnc⟩ =
        Except.error ("Invalid line number: startLine " ++
          toString ((splitNl lcontent).length + 1) ++ " is beyond end of file (" ++
          toString (splitNl lcontent).length ++ " lines)") := by
      unfold lineOpValidate
      rw [if_pos (show (splitNl lcontent).length + 1 > (splitNl lcontent).length by omega)]
    unfold performLineBasedUpdate
    simp only [lineOpsValidate, hv]

/-- Witness for C3. -/
theorem insert_at_end_behavior_witness :
    performCharBasedUpdate "a.txt".toList "ab".toList
      [⟨(("ab".toList : Text).length : Int), none, CharOpKind.insert, some "cd".toList⟩] =
      Except.ok ("ab".toList ++ "cd".toList) ∧
    performLineBasedUpdate "b.txt".toList "x\ny".toList
      [⟨LineOpType.insertLines, (splitNl "x\ny".toList).length + 1, none, some "z".toList⟩] =
      Except.error ("Invalid line number: startLine " ++
        toString ((splitNl "x\ny".toList).length + 1) ++ " is beyond end of file (" ++
        toString (splitNl "x\ny".toList).length ++ " lines)") :=
  insert_at_end_behavior "a.txt".toList "ab".toList "cd".toList
    "b.txt".toList "x\ny".toList "z".toList (by decide)

/-- C6 (amended): every error of the char-update loop has the uniform
`opFailMsg` shape: the line and column of the offset-to-position lookup at
the failing adjusted offset, the corresponding line of the current buffer,
and a caret padded to the column; when the failing adjusted offset is
non-negative the reported line and column are 1-based. -/
theorem charError_carries_position (path content : Text) (ops : List CharOperation)
    (e : String) (he : performCharBasedUpdate path content ops = Except.error e) :
    ∃ (s : Int) (b : Text) (d : String),
      e = opFailMsg (getLineColumnFromOffset (computeLineStarts content) s)
            (contextLineAt b (getLineColumnFromOffset (computeLineStarts content) s).line) d ∧
      (0 ≤ s → 1 ≤ (getLineColumnFromOffset (computeLineStarts content) s).line ∧
        ∃ k, (getLineColumnFromOffset (computeLineStarts content) s).column = some k ∧
          1 ≤ k) := by
  obtain ⟨s, b, d, hmsg⟩ :=
    charUpdateGo_error_shape path (computeLineStarts content) (sortOpsDesc ops)
      content 0 e he
  exact ⟨s, b, d, hmsg, fun hs => getLineColumn_pos content s hs⟩

/-- Witness for C6 at a concrete failing input. -/
theorem charError_carries_position_witness :
    ∃ (s : Int) (b : Text) (d : String),
      ("Operation failed at line 1, column 6:\nab\n     ^ Position 5 out of bounds (0-2)" : String) =
        opFailMsg (getLineColumnFromOffset (computeLineStarts "ab".toList) s)
          (contextLineAt b (getLineColumnFromOffset (computeLineStarts "ab".toList) s).line) d ∧
      (0 ≤ s → 1 ≤ (getLineColumnFromOffset (computeLineStarts "ab".toList) s).line ∧
        ∃ k, (getLineColumnFromOffset (computeLineStarts "ab".toList) s).column = some k ∧
          1 ≤ k) :=
  charError_carries_position "a.txt".toList "ab".toList
    [⟨5, none, CharOpKind.insert, some "x".toList⟩] _ (by decide)

/-- C10 (amended): in a single-operation batch, an insert's `endPosition`
does not affect the splice whenever it passes position validation
(`startPosition <= endPosition <= content.length`): the result inserts
`newContent` at `startPosition` and removes nothing; an out-of-bounds
`endPosition` instead fails validation.  A delete ignores any supplied
`newContent` and removes exactly the range `[startPosition, endPosition)`. -/
theorem insert_ignores_endPosition (path content nc ncDel : Text) (s e : Nat)
    (hpath : isCodeFile path = false) (hse : s ≤ e) (helen : e ≤ content.length) :
    performCharBasedUpdate path content
      [⟨(s : Int), some (e : Int), CharOpKind.insert, some nc⟩] =
      Except.ok (content.take s ++ nc ++ content.drop s) ∧
    performCharBasedUpdate path content
      [⟨(s : Int), some (e : Int), CharOpKind.delete, some ncDel⟩] =
      Except.ok (content.take s ++ content.drop e) ∧
    performCharBasedUpdate path content
      [⟨(s : Int), some (e : Int), CharOpKind.delete, none⟩] =
      Except.ok (content.take s ++ content.drop e) := by
  refine ⟨?_, ?_, ?_⟩
  · have h := charUpdate_single path content
      ⟨(s : Int), some (e : Int), CharOpKind.insert, some nc⟩ hpath
      (by simp) (by simp; exact_mod_cast hse) (by simp; exact_mod_cast helen)
    rw [h]
    simp
  · have h := charUpdate_single path content
      ⟨(s : Int), some (e : Int), CharOpKind.delete, some ncDel⟩ hpath
      (by simp) (by simp; exact_mod_cast hse) (by simp; exact_mod_cast helen)
    rw [h]
    simp
  · have h := charUpdate_single path content
      ⟨(s : Int), some (e : Int), CharOpKind.delete, none⟩ hpath
      (by simp) (by simp; exact_mod_cast hse) (by simp; exact_mod_cast helen)
    rw [h]
    simp

/-- Witness for C10. -/
theorem insert_ignores_endPosition_witness :
    performCharBasedUpdate "a.txt".toList "abcd".toList
      [⟨((1 : Nat) : Int), some ((3 : Nat) : Int), CharOpKind.insert, some "XY".toList⟩] =
      Except.ok (("abcd".toList : Text).take 1 ++ "XY".toList ++ ("abcd".toList : Text).drop 1) ∧
    performCharBasedUpdate "a.txt".toList "abcd".toList
      [⟨((1 : Nat) : Int), some ((3 : Nat) : Int), CharOpKind.delete, some "XY".toList⟩] =
      Except.ok (("abcd".toList : Text).take 1 ++ ("abcd".toList : Text).drop 3) ∧
    performCharBasedUpdate "a.txt".toList "abcd".toList
      [⟨((1 : Nat) : Int), some ((3 : Nat) : Int), CharOpKind.delete, none⟩] =
      Except.ok (("abcd".toList : Text).take 1 ++ ("abcd".toList : Text).drop 3) :=
  insert_ignores_endPosition "a.txt".toList "abcd".toList "XY".toList "XY".toList 1 3
    (by decide) (by omega) (by decide)

/-- A `.ts`/`.js` path is also subject to the `modify_text` handler check. -/
lemma code_structured {p : Text} (h : isCodeFile p = true) :
    isStructuredFile p = true := by
  unfold isCodeFile at h
  unfold isStructuredFile
  rcases Bool.or_eq_true_iff.mp h with h1 | h2
  · simp only [Bool.or_eq_true]
    exact Or.inl (Or.inl (Or.inl h1))
  · simp only [Bool.or_eq_true]
    exact Or.inl (Or.inl (Or.inr h2))

/-- C4: transactional write-back for `.ts`/`.js` files.  For `modify_chars`
and `modify_text`: a failing call leaves the disk unchanged; a successful
`modify_chars` call writes either the unmodified original (empty batch) or
structurally validated content; a successful `modify_text` call always writes
validated content; and a line batch whose applied result is unbalanced fails
with the unbalanced-delimiters error and leaves the disk unchanged. -/
theorem modify_transactional (path disk : Text) (cops : List CharOperation)
    (lops : List LineOperation) (hcode : isCodeFile path = true) :
    (∀ e, (modifyCharsCall path disk cops).2 = Except.error e →
      (modifyCharsCall path disk cops).1 = disk) ∧
    (∀ m, (modifyCharsCall path disk cops).2 = Except.ok m →
      (modifyCharsCall path disk cops).1 = disk ∨
      validateCodeStructure (modifyCharsCall path disk cops).1 = Except.ok ()) ∧
    (∀ e, (modifyTextCall path disk lops).2 = Except.error e →
      (modifyTextCall path disk lops).1 = disk) ∧
    (∀ m, (modifyTextCall path disk lops).2 = Except.ok m →
      validateCodeStructure (modifyTextCall path disk lops).1 = Except.ok ()) ∧
    (∀ mlines e, lineOpsValidate (splitNl disk).length lops = Except.ok () →
      lineOpsApply (splitNl disk) lops = Except.ok mlines →
      validateCodeStructure (joinNl mlines) = Except.error e →
      modifyTextCall path disk lops =
        (disk, Except.error ("Final code structure validation failed: " ++ e))) := by
  refine ⟨?_, ?_, ?_, ?_, ?_⟩
  · intro e he
    cases hp : performCharBasedUpdate path disk cops with
    | ok nc => simp [modifyCharsCall, hp] at he
    | error e2 => simp [modifyCharsCall, hp]
  · intro m hm
    cases hp : performCharBasedUpdate path disk cops with
    | ok nc =>
      have hb := charUpdateGo_ok_balanced path (computeLineStarts disk)
        (sortOpsDesc cops) disk 0 nc hcode hp
      simp [modifyCharsCall, hp]
      exact hb
    | error e2 => simp [modifyCharsCall, hp] at hm
  · intro e he
    cases hp : performLineBasedUpdate path disk lops with
    | ok nc =>
      have hst := code_structured hcode
      cases hv : validateCodeStructure nc with
      | ok u => simp [modifyTextCall, hp, hst, hv] at he
      | error e2 => simp [modifyTextCall, hp, hst, hv]
    | error e2 => simp [modifyTextCall, hp]
  · intro m hm
    cases hp : performLineBasedUpdate path disk lops with
    | ok nc =>
      have hst := code_structured hcode
      cases hv : validateCodeStructure nc with
      | ok u =>
        simp [modifyTextCall, hp, hst, hv]
      | error e2 => simp [modifyTextCall, hp, hst, hv] at hm
    | error e2 => simp [modifyTextCall, hp] at hm
  · intro mlines e hval happ hbad
    have hperf : performLineBasedUpdate path disk lops =
        Except.error ("Final code structure validation failed: " ++ e) := by
      unfold performLineBasedUpdate
      simp only [hval, happ, hcode, hbad, if_true]
    simp [modifyTextCall, hperf]

/-- Witness for C4: deleting the closer of `()` in `a.ts` fails and leaves
the disk unchanged, and a `modify_text` batch producing `(` fails with the
final-validation error. -/
theorem modify_transactional_witness :
    (modifyCharsCall "a.ts".toList "()".toList
      [⟨1, some 2, CharOpKind.delete, none⟩]).1 = "()".toList ∧
    modifyTextCall "a.ts".toList "()".toList
      [⟨LineOpType.replaceLines, 1, some 1, some "(".toList⟩] =
      ("()".toList,
        Except.error ("Final code structure validation failed: Unclosed brackets: (")) :=
  ⟨(modify_transactional "a.ts".toList "()".toList
      [⟨1, some 2, CharOpKind.delete, none⟩] [] (by decide)).1
      ("Operation failed at line 1, column 2:\n()\n ^ " ++
        "Code structure validation failed at line 1:\n()\n ^ Unclosed brackets: (")
      (by decide),
   (modify_transactional "a.ts".toList "()".toList []
      [⟨LineOpType.replaceLines, 1, some 1, some "(".toList⟩] (by decide)).2.2.2.2
      [['(']] "Unclosed brackets: (" (by decide) (by decide) (by decide)⟩

/-- C8: the structural check covers different extension sets in the two
editors.  For a `.py`/`.json` path (which cannot also end in `.ts`/`.js`): a
successful char batch is written back even when its result is unbalanced,
while the same resulting content produced through `modify_text` is rejected
by the handler's check with the disk left unchanged. -/
theorem structural_check_asymmetry (path disk c : Text) (cops : List CharOperation)
    (lops : List LineOperation) (e : String)
    (hpy : (endsWithT path ".py".toList || endsWithT path ".json".toList) = true)
    (_hnc : isCodeFile path = false)
    (hbad : validateCodeStructure c = Except.error e) :
    (performCharBasedUpdate path disk cops = Except.ok c →
      modifyCharsCall path disk cops =
        (c, Except.ok ("Successfully updated " ++ path.asString))) ∧
    (performLineBasedUpdate path disk lops = Except.ok c →
      modifyTextCall path disk lops = (disk, Except.error e)) := by
  have hst : isStructuredFile path = true := by
    unfold isStructuredFile
    rcases Bool.or_eq_true_iff.mp hpy with h1 | h2
    · simp only [Bool.or_eq_true]
      exact Or.inl (Or.inr h1)
    · simp only [Bool.or_eq_true]
      exact Or.inr h2
  constructor
  · intro hp
    simp [modifyCharsCall, hp]
  · intro hp
    simp [modifyTextCall, hp, hst, hbad]

/-- Witness for C8: a char batch leaves `a.py` with the unbalanced content
`(` on disk, while the same result through `modify_text` is rejected. -/
theorem structural_check_asymmetry_witness :
    modifyCharsCall "a.py".toList "ab".toList
      [⟨0, some 2, CharOpKind.replace, some "(".toList⟩] =
      ("(".toList, Except.ok ("Successfully updated " ++ ("a.py".toList : Text).asString)) ∧
    modifyTextCall "a.py".toList "ab".toList
      [⟨LineOpType.replaceLines, 1, some 1, some "(".toList⟩] =
      ("ab".toList, Except.error "Unclosed brackets: (") :=
  ⟨(structural_check_asymmetry "a.py".toList "ab".toList "(".toList
      [⟨0, some 2, CharOpKind.replace, some "(".toList⟩]
      [⟨LineOpType.replaceLines, 1, some 1, some "(".toList⟩]
      "Unclosed brackets: (" (by decide) (by decide) (by decide)).1 (by decide),
   (structural_check_asymmetry "a.py".toList "ab".toList "(".toList
      [⟨0, some 2, CharOpKind.replace, some "(".toList⟩]
      [⟨LineOpType.replaceLines, 1, some 1, some "(".toList⟩]
      "Unclosed brackets: (" (by decide) (by decide) (by decide)).2 (by decide)⟩

/-- The splitter `splitOnChar` never returns the empty list. -/
lemma splitOnChar_ne_nil (sep : Char) : ∀ (l : Text), splitOnChar sep l ≠ [] := by
  intro l
  cases l with
  | nil => simp [splitOnChar]
  | cons c rest =>
    simp only [splitOnChar]
    cases hsp : splitOnChar sep rest with
    | nil => simp
    | cons h t =>
      by_cases hc : c = sep
      · simp [hc]
      · simp [hc]

/-- Splitting on newlines yields one more piece than there are newlines. -/
lemma splitNl_length : ∀ (l : Text), (splitNl l).length = l.count '\n' + 1 := by
  intro l
  induction l with
  | nil => simp [splitNl, splitOnChar]
  | cons c rest ih =>
    cases hsp : splitOnChar '\n' rest with
    | nil => exact absurd hsp (splitOnChar_ne_nil '\n' rest)
    | cons h t =>
      rw [splitNl] at ih
      rw [hsp] at ih
      by_cases hc : c = '\n'
      · simp [splitNl, splitOnChar, hsp, hc, List.count_cons] at ih ⊢
        omega
      · simp [splitNl, splitOnChar, hsp, hc, List.count_cons] at ih ⊢
        omega

/-- C9 (amended): for a single `replaceLines` or `insertLines` operation with
a nonempty `newContent` (the empty string is rejected by a truthiness test),
`newContent` is split on the newline character and each piece becomes a
separate line: `replaceLines` with `endLine = startLine` replaces one line
with `count + 1` lines, and `insertLines` inserts them before `startLine`. -/
theorem lineOps_split_newContent (path content nc : Text) (s : Nat)
    (hpath : isCodeFile path = false) (hnc : nc ≠ [])
    (hs1 : 1 ≤ s) (hs2 : s ≤ (splitNl content).length) :
    performLineBasedUpdate path content [⟨LineOpType.replaceLines, s, some s, some nc⟩] =
      Except.ok (joinNl ((splitNl content).take (s - 1) ++ splitNl nc ++
        (splitNl content).drop s)) ∧
    performLineBasedUpdate path content [⟨LineOpType.insertLines, s, none, some nc⟩] =
      Except.ok (joinNl ((splitNl content).take (s - 1) ++ splitNl nc ++
        (splitNl content).drop (s - 1))) ∧
    (splitNl nc).length = nc.count '\n' + 1 := by
  refine ⟨?_, ?_, splitNl_length nc⟩
  · have hval : lineOpValidate (splitNl content).length
        ⟨LineOpType.replaceLines, s, some s, some nc⟩ = Except.ok () := by
      unfold lineOpValidate
      rw [if_neg (show ¬ s > (splitNl content).length by omega)]
      simp only
      rw [if_neg (show ¬ s > (splitNl content).length by omega),
        if_neg (show ¬ s < s by omega)]
    have happ : applyLineOp (splitNl content) ⟨LineOpType.replaceLines, s, some s, some nc⟩ =
        Except.ok (jsSplice (splitNl content) (s - 1)
          (min (s - s + 1) ((splitNl content).length - (s - 1))) (splitNl nc)) := by
      simp [applyLineOp, truthyText, hnc]
    have hcount : min (s - s + 1) ((splitNl content).length - (s - 1)) = 1 := by
      have h1 : s - s + 1 = 1 := by omega
      rw [h1]
      exact Nat.min_eq_left (by omega)
    unfold performLineBasedUpdate
    simp only [lineOpsValidate, hval, lineOpsApply, happ, hcount]
    have hdrop : s - 1 + 1 = s := by omega
    simp only [jsSplice, hdrop]
    simp [hpath]
  · have hval : lineOpValidate (splitNl content).length
        ⟨LineOpType.insertLines, s, none, some nc⟩ = Except.ok () := by
      unfold lineOpValidate
      rw [if_neg (show ¬ s > (splitNl content).length by omega)]
    have happ : applyLineOp (splitNl content) ⟨LineOpType.insertLines, s, none, some nc⟩ =
        Except.ok (jsSplice (splitNl content) (min (s - 1) (splitNl content).length) 0
          (splitNl nc)) := by
      simp [applyLineOp, truthyText, hnc]
    have hmin : min (s - 1) (splitNl content).length = s - 1 :=
      Nat.min_eq_left (by omega)
    unfold performLineBasedUpdate
    simp only [lineOpsValidate, hval, lineOpsApply, happ, hmin, hpath]
    simp [jsSplice, hpath]

/-- Witness for C9. -/
theorem lineOps_split_newContent_witness :
    performLineBasedUpdate "a.txt".toList "p\nq".toList
      [⟨LineOpType.replaceLines, 2, some 2, some "x\ny".toList⟩] =
      Except.ok (joinNl ((splitNl "p\nq".toList).take (2 - 1) ++ splitNl "x\ny".toList ++
        (splitNl "p\nq".toList).drop 2)) ∧
    performLineBasedUpdate "a.txt".toList "p\nq".toList
      [⟨LineOpType.insertLines, 2, none, some "x\ny".toList⟩] =
      Except.ok (joinNl ((splitNl "p\nq".toList).take (2 - 1) ++ splitNl "x\ny".toList ++
        (splitNl "p\nq".toList).drop (2 - 1))) ∧
    (splitNl "x\ny".toList).length = ("x\ny".toList : Text).count '\n' + 1 :=
  lineOps_split_newContent "a.txt".toList "p\nq".toList "x\ny".toList 2
    (by decide) (by decide) (by omega) (by decide)
